import Mathlib

/-!
Verification of the `autocomplete` backend against its specification.

The development shallowly embeds the parts of the program that the claims
talk about:

* `backend/internal/storage/vector_search.c` — the native vector index
  (`create_index`, `knn_search` with its brute-force fallback).  32-bit
  floats are modelled as exact rationals; the C distance is
  `sqrtf` of the sum of squared differences, and since `sqrtf` is strictly
  monotone every comparison the search performs coincides with a comparison
  of squared distances, so distances are modelled by the squared sum in
  `WithTop ℚ`, with `⊤` standing for the `FLT_MAX` returned on a dimension
  mismatch (`FLT_MAX < FLT_MAX` is false exactly as `⊤ < ⊤` is).
* `backend/internal/storage/bluge.go` — the `CGoStore` wrapper (`Add`,
  `Query`, `Close`).  C heap allocation always succeeds in the model; the
  only error paths of `Add` in the source are `malloc` failures.  The Go
  runtime fault on a negative / out-of-range document index in `Query`
  is modelled as an `Except.error "index out of range"` value.
* `backend/internal/cache/cache_key.go` — `ComputeKey` with a full
  executable SHA-256 over the UTF-8 bytes of the input string.
* the in-memory embedding cache (`InMemoryCache`) — modelled twice: with
  value semantics for use by the completion service, and with an explicit
  slice heap to make the Go slice aliasing and the defensive copies
  observable.
* `backend/internal/completer/service.go` — `reIndex`, `IndexFile`,
  `DeleteFile`, with the chunker and the embedder as parameters
  (both are external effects: file system and network).
* `backend/internal/completer/config.go` — `LoadConfig` / `Validate`
  over an explicit environment (association list of variables).
-/

namespace Autocomplete

/-! ## Vector index data model (vector_search.c) -/

/-- Distances as computed by `calculate_euclidean_distance`: a genuine
(squared) distance is a rational, `⊤` models the `FLT_MAX` sentinel
returned when the two vectors have different lengths. -/
abbrev Dist := WithTop ℚ

/-- Sum of squared component differences of two equal-length vectors
(the loop body of `calculate_euclidean_distance`). -/
def sumSqDiff (a b : List ℚ) : ℚ :=
  ((a.zip b).map (fun p => (p.1 - p.2) ^ 2)).sum

/-- Model of `calculate_euclidean_distance`: `FLT_MAX` (here `⊤`) on a
length mismatch, otherwise the (squared, see the file comment) distance. -/
def calculate_euclidean_distance (a b : List ℚ) : Dist :=
  if a.length = b.length then (sumSqDiff a b : Dist) else ⊤

/-- An HNSW node (from the struct used by `vector_search.c`):
per-layer connection lists of vector ids. -/
structure HNSWNode where
  vector_id : Int
  maximum_layer : ℕ
  layer_connections : List (List Int)
deriving Repr, DecidableEq

/-- The HNSW graph structure of `vector_search.c`. -/
structure HNSWGraph where
  nodes : List HNSWNode
  original_vectors : List (List ℚ)
  node_count : ℕ
  entry_point_node_id : ℕ
  maximum_layer_in_graph : ℕ
  max_connections_per_node : ℕ
  max_connections_layer_zero : ℕ
  level_generation_factor : ℚ
  construction_search_width : ℕ
deriving Repr, DecidableEq

/-- The `VectorIndex` struct: backing vectors, their count, and the flag
plus optional graph selecting the HNSW strategy. -/
structure VectorIndex where
  vectors : List (List ℚ)
  len : ℕ
  hnsw_graph : Option HNSWGraph
  use_hnsw_optimization : Bool
deriving Repr, DecidableEq

/-- Model of `create_index`: stores the vectors, clears the HNSW graph
pointer and sets `use_hnsw_optimization` to `0`. -/
def create_index (vectors : List (List ℚ)) : VectorIndex :=
  { vectors := vectors
    len := vectors.length
    hnsw_graph := none
    use_hnsw_optimization := false }

instance : Inhabited HNSWGraph :=
  ⟨⟨[], [], 0, 0, 0, 0, 0, 0, 0⟩⟩

/-- The HNSW search path of `knn_search` (`hnsw_knn_search` in the
source).  Its graph is built by `create_hnsw_index`, which no caller in
the repository ever invokes: the Go layer builds every index through
`create_index`, which clears `use_hnsw_optimization`, so `knn_search`
never enters this branch (this deadness is exactly what claim C6 states
and what the theorem for C6 proves).  The branch is therefore modelled
by its interface only; no theorem in this development depends on its
value. -/
def hnsw_knn_search (_graph : HNSWGraph) (_query : List ℚ) (_k : ℕ) : List Int :=
  []

/-- A (distance, vector id) entry of the parallel `distances` /
`neighbors` arrays maintained by the brute-force loop of `knn_search`. -/
abbrev DistId := Dist × Int

/-- The initial content of one slot of the brute-force arrays:
distance `FLT_MAX`, neighbor `-1`. -/
def knnSentinel : DistId := (⊤, -1)

/-- One insertion step of the brute-force loop of `knn_search`: find the
first position whose retained distance exceeds the new one, insert there
and shift the tail right (the last slot falls off); if no position is
strictly worse the candidate is dropped. -/
def knnInsert (d : Dist) (i : Int) : List DistId → List DistId
  | [] => []
  | (d0, i0) :: rest =>
    if d < d0 then (d, i) :: (((d0, i0) :: rest).dropLast)
    else (d0, i0) :: knnInsert d i rest

/-- The brute-force fallback of `knn_search`: initialise `k` slots to
`(FLT_MAX, -1)`, then insert each stored vector in id order; return the
neighbor ids. -/
def bruteForceKnn (index : VectorIndex) (query : List ℚ) (k : ℕ) : List Int :=
  let pairs := (List.range index.len).map
    (fun j => (calculate_euclidean_distance query (index.vectors.getD j []), (j : Int)))
  (pairs.foldl (fun acc p => knnInsert p.1 p.2 acc) (List.replicate k knnSentinel)).map
    (fun p => p.2)

/-- Model of `knn_search`: take the HNSW path when the flag is set and a
graph exists, otherwise the brute-force fallback. -/
def knn_search (index : VectorIndex) (query : List ℚ) (k : ℕ) : List Int :=
  if index.use_hnsw_optimization = true ∧ index.hnsw_graph.isSome then
    hnsw_knn_search (index.hnsw_graph.getD default) query k
  else
    bruteForceKnn index query k

/-! ## The Go wrapper `CGoStore` (bluge.go) -/

/-- The Go-side store: declared dimension, the C index pointer (`none`
models the nil pointer), and the parallel document array. -/
structure CGoStore where
  dim : ℕ
  index : Option VectorIndex
  docs : List String
deriving Repr, DecidableEq

/-- Model of `NewVectorStore`: only `dim` is set; the index pointer is
nil and no documents are held. -/
def NewVectorStore (dim : ℕ) : CGoStore :=
  { dim := dim, index := none, docs := [] }

/-- Model of `CGoStore.Close`: frees the C memory and nils the index
pointer (memory itself is not modelled). -/
def CGoStore.Close (s : CGoStore) : CGoStore :=
  { s with index := none }

/-- Model of `CGoStore.Add`: closes any previous index, installs the
documents, and — for a non-empty batch — copies the vectors to the C
heap and builds the index with `create_index`.  The source's only error
returns are `malloc` failures, which the model treats as absent, and the
source performs no dimension validation whatsoever. -/
def CGoStore.Add (s : CGoStore) (vectors : List (List ℚ)) (documents : List String) :
    Except String CGoStore :=
  let s := if s.index.isSome then s.Close else s
  let s := { s with docs := documents }
  if vectors.length = 0 then
    .ok { s with index := none }
  else
    .ok { s with index := some (create_index vectors) }

/-- Model of `CGoStore.Query`: error on a nil index; otherwise run
`knn_search` and look every returned id up in `docs`.  The Go code
indexes `s.docs[neighbors[i]]` unconditionally, so a negative sentinel
or out-of-range id is a runtime fault, modelled as the
`"index out of range"` error value. -/
def CGoStore.Query (s : CGoStore) (vector : List ℚ) (k : ℕ) :
    Except String (List String) :=
  match s.index with
  | none => .error "index is not initialized"
  | some idx =>
    let neighbors := knn_search idx vector k
    neighbors.mapM (fun i =>
      if 0 ≤ i ∧ i.toNat < s.docs.length then .ok (s.docs.getD i.toNat "")
      else .error "index out of range")

/-! ## Characterisation of the brute-force search

The bounded insertion loop of `knn_search` is shown to compute the first
`k` entries of the stable insertion sort (by distance, earliest id first)
of all stored vectors, padded with `-1` sentinels when fewer than `k`
vectors exist. -/

/-- The strict comparison the brute-force loop performs:
`current_distance < distances[insertion_position]`. -/
def distLT : DistId → DistId → Prop := fun x y => x.1 < y.1

instance : DecidableRel distLT := fun x y => inferInstanceAs (Decidable (x.1 < y.1))

/-- Distance-then-id order: the order in which the brute-force loop
emits its results (non-decreasing distance, earliest-inserted id first
among equal distances). -/
def distIdLE : DistId → DistId → Prop :=
  fun x y => x.1 < y.1 ∨ (x.1 = y.1 ∧ x.2 < y.2)

/-- The (distance, id) pairs the brute-force loop inserts, in insertion
order. -/
def pairsOf (vs : List (List ℚ)) (q : List ℚ) : List DistId :=
  (List.range vs.length).map
    (fun j => (calculate_euclidean_distance q (vs.getD j []), (j : Int)))

/-- Stable insertion sort of the pairs, processing them left to right
(so among equal distances the earlier id lands first). -/
def isortD (ps : List DistId) : List DistId :=
  ps.foldl (fun acc p => List.orderedInsert distLT p acc) []

theorem take_congr_of_le {α : Type} {l₁ l₂ : List α} {k m : ℕ}
    (h : l₁.take k = l₂.take k) (hm : m ≤ k) : l₁.take m = l₂.take m := by
  have h1 : l₁.take m = (l₁.take k).take m := by
    rw [List.take_take, Nat.min_eq_left hm]
  have h2 : l₂.take m = (l₂.take k).take m := by
    rw [List.take_take, Nat.min_eq_left hm]
  rw [h1, h2, h]

theorem knnInsert_eq_orderedInsert_take (d : Dist) (i : Int) :
    ∀ l : List DistId,
      knnInsert d i l = (List.orderedInsert distLT (d, i) l).take l.length
  | [] => rfl
  | (d0, i0) :: rest => by
    by_cases h : d < d0
    · have hlt : distLT (d, i) (d0, i0) := h
      simp only [knnInsert, List.orderedInsert, if_pos h, if_pos hlt,
        List.length_cons, List.take_succ_cons, List.dropLast_eq_take]
      simp
    · have hlt : ¬ distLT (d, i) (d0, i0) := h
      simp only [knnInsert, List.orderedInsert, if_neg h, if_neg hlt,
        List.length_cons, List.take_succ_cons]
      rw [knnInsert_eq_orderedInsert_take d i rest]

theorem orderedInsert_take_congr (x : DistId) :
    ∀ (l₁ : List DistId) (k : ℕ) (l₂ : List DistId), l₁.take k = l₂.take k →
      (List.orderedInsert distLT x l₁).take k = (List.orderedInsert distLT x l₂).take k
  | [], k, l₂, h => by
    match k with
    | 0 => simp
    | k + 1 =>
      match l₂ with
      | [] => rfl
      | b :: t₂ => simp at h
  | a :: t₁, k, l₂, h => by
    match k with
    | 0 => simp
    | k + 1 =>
      match l₂ with
      | [] => simp at h
      | b :: t₂ =>
        simp only [List.take_succ_cons, List.cons.injEq] at h
        obtain ⟨rfl, ht⟩ := h
        by_cases hr : distLT x a
        · simp only [List.orderedInsert, if_pos hr, List.take_succ_cons,
            List.cons.injEq, true_and]
          match k with
          | 0 => simp
          | k + 1 =>
            simp only [List.take_succ_cons, List.cons.injEq, true_and]
            exact take_congr_of_le ht (Nat.le_succ k)
        · simp only [List.orderedInsert, if_neg hr, List.take_succ_cons,
            List.cons.injEq, true_and]
          exact orderedInsert_take_congr x t₁ k t₂ ht

theorem foldl_knnInsert_eq (ps : List DistId) :
    ∀ (init : List DistId) (k : ℕ), k ≤ init.length →
      ps.foldl (fun acc p => knnInsert p.1 p.2 acc) (init.take k)
        = (ps.foldl (fun acc p => List.orderedInsert distLT p acc) init).take k
  | init, k, hk => by
    induction ps generalizing init with
    | nil => rfl
    | cons p rest ih =>
      simp only [List.foldl_cons]
      have hlen : (init.take k).length = k := by
        simp [List.length_take, Nat.min_eq_left hk]
      have h1 : knnInsert p.1 p.2 (init.take k)
          = (List.orderedInsert distLT p (init.take k)).take k := by
        rw [knnInsert_eq_orderedInsert_take, hlen]
      have h2 : (List.orderedInsert distLT p (init.take k)).take k
          = (List.orderedInsert distLT p init).take k := by
        apply orderedInsert_take_congr
        rw [List.take_take, Nat.min_self]
      rw [h1, h2]
      exact ih (List.orderedInsert distLT p init)
        (le_trans hk (by rw [List.orderedInsert_length]; exact Nat.le_succ _))

theorem orderedInsert_append_sentinels (x : DistId) (hx : x.1 < ⊤) :
    ∀ (l : List DistId) (m : ℕ),
      List.orderedInsert distLT x (l ++ List.replicate m knnSentinel)
        = List.orderedInsert distLT x l ++ List.replicate m knnSentinel
  | [], m => by
    match m with
    | 0 => rfl
    | m + 1 =>
      have hlt : distLT x knnSentinel := hx
      simp [List.replicate_succ, List.orderedInsert, if_pos hlt]
  | a :: t, m => by
    by_cases hr : distLT x a
    · simp [List.orderedInsert, if_pos hr]
    · simp only [List.cons_append, List.orderedInsert, if_neg hr, List.cons.injEq, true_and]
      exact orderedInsert_append_sentinels x hx t m

theorem foldl_orderedInsert_sentinels :
    ∀ (ps : List DistId), (∀ p ∈ ps, p.1 < ⊤) →
      ∀ (l : List DistId) (m : ℕ),
        ps.foldl (fun acc p => List.orderedInsert distLT p acc)
            (l ++ List.replicate m knnSentinel)
          = ps.foldl (fun acc p => List.orderedInsert distLT p acc) l
            ++ List.replicate m knnSentinel
  | [], _, l, m => rfl
  | p :: rest, hps, l, m => by
    simp only [List.foldl_cons]
    rw [orderedInsert_append_sentinels p (hps p (List.mem_cons_self p rest)) l m]
    exact foldl_orderedInsert_sentinels rest
      (fun q hq => hps q (List.mem_cons_of_mem p hq)) _ m

theorem foldl_orderedInsert_perm (ps : List DistId) :
    ∀ acc, List.Perm
      (ps.foldl (fun acc p => List.orderedInsert distLT p acc) acc) (acc ++ ps) := by
  induction ps with
  | nil => intro acc; simp
  | cons p rest ih =>
    intro acc
    have h1 := ih (List.orderedInsert distLT p acc)
    have h2 : List.Perm (List.orderedInsert distLT p acc ++ rest) ((p :: acc) ++ rest) :=
      (List.perm_orderedInsert distLT p acc).append_right rest
    have h3 : List.Perm ((p :: acc) ++ rest) (acc ++ p :: rest) := List.perm_middle.symm
    exact (h1.trans h2).trans h3

theorem isortD_perm (ps : List DistId) : List.Perm (isortD ps) ps := by
  simpa [isortD] using foldl_orderedInsert_perm ps []

theorem isortD_length (ps : List DistId) : (isortD ps).length = ps.length :=
  (isortD_perm ps).length_eq

theorem distIdLE_fst_le {a b : DistId} (h : distIdLE a b) : a.1 ≤ b.1 := by
  rcases h with h | ⟨h, _⟩
  · exact le_of_lt h
  · exact le_of_eq h

theorem pairwise_orderedInsert (x : DistId) :
    ∀ l : List DistId, l.Pairwise distIdLE → (∀ y ∈ l, y.2 < x.2) →
      (List.orderedInsert distLT x l).Pairwise distIdLE
  | [], _, _ => by simp
  | a :: t, hp, hlt => by
    rcases List.pairwise_cons.mp hp with ⟨ha, ht⟩
    by_cases hr : distLT x a
    · simp only [List.orderedInsert, if_pos hr]
      refine List.pairwise_cons.mpr ⟨?_, hp⟩
      intro z hz
      rcases List.mem_cons.mp hz with rfl | hz
      · exact Or.inl hr
      · exact Or.inl (lt_of_lt_of_le hr (distIdLE_fst_le (ha z hz)))
    · simp only [List.orderedInsert, if_neg hr]
      refine List.pairwise_cons.mpr ⟨?_, ?_⟩
      · intro z hz
        rcases List.mem_cons.mp ((List.perm_orderedInsert distLT x t).mem_iff.mp hz) with
          rfl | hz
        · rcases lt_or_eq_of_le (le_of_not_lt hr) with h | h
          · exact Or.inl h
          · exact Or.inr ⟨h, hlt a (List.mem_cons_self a t)⟩
        · exact ha z hz
      · exact pairwise_orderedInsert x t ht
          (fun y hy => hlt y (List.mem_cons_of_mem a hy))

theorem pairwise_foldl_orderedInsert :
    ∀ (ps : List DistId) (acc : List DistId), acc.Pairwise distIdLE →
      (∀ y ∈ acc, ∀ p ∈ ps, y.2 < p.2) →
      ps.Pairwise (fun p q => p.2 < q.2) →
      (ps.foldl (fun acc p => List.orderedInsert distLT p acc) acc).Pairwise distIdLE
  | [], acc, hacc, _, _ => hacc
  | p :: rest, acc, hacc, hsep, hps => by
    rcases List.pairwise_cons.mp hps with ⟨hp, hrest⟩
    refine pairwise_foldl_orderedInsert rest (List.orderedInsert distLT p acc) ?_ ?_ hrest
    · exact pairwise_orderedInsert p acc hacc
        (fun y hy => hsep y hy p (List.mem_cons_self p rest))
    · intro y hy q hq
      rcases List.mem_cons.mp ((List.perm_orderedInsert distLT p acc).mem_iff.mp hy) with
        rfl | hy
      · exact hp q hq
      · exact hsep y hy q (List.mem_cons_of_mem p hq)

theorem pairsOf_pairwise_snd (vs : List (List ℚ)) (q : List ℚ) :
    (pairsOf vs q).Pairwise (fun p q => p.2 < q.2) := by
  unfold pairsOf
  rw [List.pairwise_map]
  exact (List.pairwise_lt_range vs.length).imp (fun h => Int.ofNat_lt.mpr h)

theorem isortD_pairwise (vs : List (List ℚ)) (q : List ℚ) :
    (isortD (pairsOf vs q)).Pairwise distIdLE :=
  pairwise_foldl_orderedInsert _ [] List.Pairwise.nil (by simp)
    (pairsOf_pairwise_snd vs q)

/-- Membership characterisation of the insertion pairs. -/
theorem mem_pairsOf {vs : List (List ℚ)} {q : List ℚ} {p : DistId}
    (h : p ∈ pairsOf vs q) :
    ∃ j : ℕ, j < vs.length ∧
      p = (calculate_euclidean_distance q (vs.getD j []), (j : Int)) := by
  unfold pairsOf at h
  rcases List.mem_map.mp h with ⟨j, hj, rfl⟩
  exact ⟨j, List.mem_range.mp hj, rfl⟩

/-- Master characterisation: on an index built by `create_index`, when no
inserted distance is the `FLT_MAX` sentinel, the brute-force search
returns the first `k` of the stably sorted ids, padded with `-1`. -/
theorem bruteForceKnn_eq (vs : List (List ℚ)) (q : List ℚ) (k : ℕ)
    (hfin : ∀ p ∈ pairsOf vs q, p.1 < ⊤) :
    bruteForceKnn (create_index vs) q k
      = ((isortD (pairsOf vs q)).take k).map (fun p => p.2)
        ++ List.replicate (k - vs.length) (-1 : Int) := by
  have key := foldl_knnInsert_eq (pairsOf vs q) (List.replicate k knnSentinel) k (by simp)
  rw [List.take_replicate, Nat.min_self] at key
  have h1 : bruteForceKnn (create_index vs) q k
      = (((pairsOf vs q).foldl (fun acc p => List.orderedInsert distLT p acc)
          (List.replicate k knnSentinel)).take k).map (fun p => p.2) := by
    unfold pairsOf at key
    unfold bruteForceKnn create_index
    simp only []
    rw [key]
    unfold pairsOf
    rfl
  have h2 : (pairsOf vs q).foldl (fun acc p => List.orderedInsert distLT p acc)
        (List.replicate k knnSentinel)
      = isortD (pairsOf vs q) ++ List.replicate k knnSentinel := by
    have := foldl_orderedInsert_sentinels (pairsOf vs q) hfin [] k
    simpa [isortD] using this
  rw [h1, h2]
  have hlen : (isortD (pairsOf vs q)).length = vs.length := by
    rw [isortD_length]
    unfold pairsOf
    simp
  rw [List.take_append_eq_append_take, List.take_replicate, hlen]
  have hmin : min k vs.length ≤ k := Nat.min_le_left _ _
  rw [Nat.min_eq_left (Nat.sub_le _ _) ]
  simp [knnSentinel]

theorem pairsOf_length (vs : List (List ℚ)) (q : List ℚ) :
    (pairsOf vs q).length = vs.length := by
  simp [pairsOf]

/-- When the query and every stored vector share the declared dimension,
no inserted distance is the `FLT_MAX` sentinel. -/
theorem pairsOf_finite {dim : ℕ} {vs : List (List ℚ)} {q : List ℚ}
    (hvs : ∀ v ∈ vs, v.length = dim) (hq : q.length = dim) :
    ∀ p ∈ pairsOf vs q, p.1 < ⊤ := by
  intro p hp
  obtain ⟨j, hj, rfl⟩ := mem_pairsOf hp
  have hv : vs.getD j [] ∈ vs := by
    rw [List.getD_eq_getElem vs [] hj]
    exact List.getElem_mem hj
  have hlen : q.length = (vs.getD j []).length := by
    rw [hq, hvs _ hv]
  simp only [calculate_euclidean_distance, if_pos hlen]
  exact WithTop.coe_lt_top _

theorem mapM_ok_of_forall {α β : Type} (f : α → Except String β) (g : α → β) :
    ∀ l : List α, (∀ a ∈ l, f a = .ok (g a)) → l.mapM f = .ok (l.map g)
  | [], _ => rfl
  | a :: t, h => by
    rw [List.mapM_cons, h a (List.mem_cons_self a t),
      mapM_ok_of_forall f g t (fun b hb => h b (List.mem_cons_of_mem a hb))]
    rfl

theorem mapM_error_cons {α β : Type} (f : α → Except String β) (a : α) (l : List α)
    (e : String) (h : f a = .error e) : (a :: l).mapM f = .error e := by
  rw [List.mapM_cons, h]
  rfl

theorem mapM_append_error {α β : Type} (f : α → Except String β) (e : String) :
    ∀ (l₁ l₂ : List α), (∀ a ∈ l₁, ∃ b, f a = .ok b) → l₂.mapM f = .error e →
      (l₁ ++ l₂).mapM f = .error e
  | [], l₂, _, h₂ => by simpa using h₂
  | a :: t, l₂, h₁, h₂ => by
    obtain ⟨b, hb⟩ := h₁ a (List.mem_cons_self a t)
    rw [List.cons_append, List.mapM_cons, hb,
      mapM_append_error f e t l₂ (fun x hx => h₁ x (List.mem_cons_of_mem a hx)) h₂]
    rfl

/-- Every document an `ok` result of `Query` contains is drawn from the
stored document array. -/
theorem mapM_ok_mem {α β : Type} (f : α → Except String β) (P : β → Prop)
    (hP : ∀ a b, f a = .ok b → P b) :
    ∀ (l : List α) (res : List β), l.mapM f = .ok res → ∀ b ∈ res, P b
  | [], res, h, b, hb => by
    simp only [List.mapM_nil] at h
    cases h
    simp at hb
  | a :: t, res, h, b, hb => by
    rw [List.mapM_cons] at h
    match ha : f a with
    | .error e => rw [ha] at h; simp [Bind.bind, Except.bind] at h
    | .ok v =>
      rw [ha] at h
      match ht : t.mapM f with
      | .error e => rw [ht] at h; simp [Bind.bind, Except.bind, Pure.pure] at h
      | .ok vs =>
        rw [ht] at h
        have : res = v :: vs := by
          simpa [Bind.bind, Except.bind, Pure.pure, Except.pure] using h.symm
        subst this
        rcases List.mem_cons.mp hb with rfl | hb
        · exact hP a b ha
        · exact mapM_ok_mem f P hP t vs ht b hb

/-! ## Claim C1 -/

/-- C1: for every brute-force index built by `add(vs, ds)` with parallel
arrays of equal length `n ≥ 1` (all vectors of the index dimension) and
every `k` with `1 ≤ k ≤ n`, `query(q, k)` returns exactly `k` documents,
each drawn from `ds`, ordered by non-decreasing Euclidean distance to
`q`, ties broken in favour of the earliest-inserted vector. -/
theorem claim_C1 (dim k : ℕ) (vs : List (List ℚ)) (ds : List String) (q : List ℚ)
    (s : CGoStore)
    (hvs : ∀ v ∈ vs, v.length = dim) (hq : q.length = dim)
    (hn : vs.length = ds.length) (hk1 : 1 ≤ k) (hkn : k ≤ vs.length)
    (hadd : (NewVectorStore dim).Add vs ds = .ok s) :
    ∃ ids : List ℕ,
      s.Query q k = .ok (ids.map (fun i => ds.getD i "")) ∧
      ids.length = k ∧
      (∀ i ∈ ids, i < ds.length) ∧
      (∀ d ∈ ids.map (fun i => ds.getD i ""), d ∈ ds) ∧
      List.Pairwise (fun i j =>
        calculate_euclidean_distance q (vs.getD i [])
            < calculate_euclidean_distance q (vs.getD j [])
          ∨ (calculate_euclidean_distance q (vs.getD i [])
              = calculate_euclidean_distance q (vs.getD j []) ∧ i < j)) ids := by
  have hne : ¬ vs.length = 0 := by omega
  have hs : s = ⟨dim, some (create_index vs), ds⟩ := by
    simp only [CGoStore.Add, NewVectorStore, Option.isSome_none, Bool.false_eq_true,
      if_false, if_neg hne] at hadd
    exact (Except.ok.injEq _ _).mp hadd.symm |>.symm ▸ rfl
  subst hs
  set S := (isortD (pairsOf vs q)).take k with hS
  have hSlen : S.length = k := by
    rw [hS, List.length_take, isortD_length, pairsOf_length]
    omega
  have hmemS : ∀ p ∈ S, ∃ j : ℕ, j < vs.length ∧
      p = (calculate_euclidean_distance q (vs.getD j []), (j : Int)) := by
    intro p hp
    exact mem_pairsOf ((isortD_perm _).mem_iff.mp (List.take_subset _ _ hp))
  have hcond : ¬((create_index vs).use_hnsw_optimization = true ∧
      (create_index vs).hnsw_graph.isSome) := by
    simp [create_index]
  have hknn : knn_search (create_index vs) q k = S.map (fun p => p.2) := by
    rw [knn_search, if_neg hcond, bruteForceKnn_eq vs q k (pairsOf_finite hvs hq),
      Nat.sub_eq_zero_of_le hkn]
    simp [hS]
  refine ⟨S.map (fun p => p.2.toNat), ?_, ?_, ?_, ?_, ?_⟩
  · show CGoStore.Query _ q k = _
    simp only [CGoStore.Query, hknn]
    have hquery : (S.map (fun p => p.2)).mapM (fun i =>
        if 0 ≤ i ∧ i.toNat < ds.length then Except.ok (ds.getD i.toNat "")
        else Except.error "index out of range")
        = .ok ((S.map (fun p => p.2)).map (fun i => ds.getD i.toNat "")) := by
      apply mapM_ok_of_forall
      intro i hi
      rcases List.mem_map.mp hi with ⟨p, hp, rfl⟩
      obtain ⟨j, hj, rfl⟩ := hmemS p hp
      have hcond : (0:Int) ≤ (j:Int) ∧ ((j:Int)).toNat < ds.length := by
        constructor
        · exact Int.ofNat_nonneg j
        · rw [Int.toNat_ofNat]; omega
      rw [if_pos hcond]
    rw [hquery, List.map_map, List.map_map]
    rfl
  · rw [List.length_map, hSlen]
  · intro i hi
    rcases List.mem_map.mp hi with ⟨p, hp, rfl⟩
    obtain ⟨j, hj, rfl⟩ := hmemS p hp
    simp only [Int.toNat_ofNat]
    omega
  · intro d hd
    rcases List.mem_map.mp hd with ⟨i, hi, rfl⟩
    rcases List.mem_map.mp hi with ⟨p, hp, rfl⟩
    obtain ⟨j, hj, rfl⟩ := hmemS p hp
    have hjd : ((j:Int)).toNat < ds.length := by rw [Int.toNat_ofNat]; omega
    rw [List.getD_eq_getElem ds "" hjd]
    exact List.getElem_mem hjd
  · rw [List.pairwise_map]
    have hsorted : S.Pairwise distIdLE :=
      (isortD_pairwise vs q).sublist (List.take_sublist k _)
    refine hsorted.imp_of_mem ?_
    intro a b ha hb hab
    obtain ⟨ja, hja, rfl⟩ := hmemS a ha
    obtain ⟨jb, hjb, rfl⟩ := hmemS b hb
    simp only [Int.toNat_ofNat]
    rcases hab with h | ⟨h1, h2⟩
    · exact Or.inl h
    · exact Or.inr ⟨h1, Int.ofNat_lt.mp h2⟩

/-- Witness for C1: add two one-dimensional vectors and query the single
nearest. -/
theorem claim_C1_witness :
    ∃ ids : List ℕ,
      (CGoStore.mk 1 (some (create_index [[(0:ℚ)], [2]])) ["a", "b"]).Query [0] 1
          = .ok (ids.map (fun i => ["a", "b"].getD i "")) ∧
      ids.length = 1 ∧
      (∀ i ∈ ids, i < (["a", "b"] : List String).length) ∧
      (∀ d ∈ ids.map (fun i => ["a", "b"].getD i ""), d ∈ (["a", "b"] : List String)) ∧
      List.Pairwise (fun i j =>
        calculate_euclidean_distance [0] ([[(0:ℚ)], [2]].getD i [])
            < calculate_euclidean_distance [0] ([[(0:ℚ)], [2]].getD j [])
          ∨ (calculate_euclidean_distance [0] ([[(0:ℚ)], [2]].getD i [])
              = calculate_euclidean_distance [0] ([[(0:ℚ)], [2]].getD j []) ∧ i < j)) ids :=
  claim_C1 1 1 [[0], [2]] ["a", "b"] [0] _
    (by intro v hv; rcases List.mem_cons.mp hv with rfl | hv; · rfl
        · rcases List.mem_cons.mp hv with rfl | hv; · rfl
          · simp at hv)
    rfl rfl (le_refl 1) (by decide) rfl

/-! ## Claim C2 -/

/-- C2 counterexample: with one stored vector, `query(q, 2)` does not
succeed with the single stored document — the brute-force id array is
padded with a `-1` sentinel and the document lookup faults. -/
theorem claim_C2_counterexample :
    (do
      let s ← (NewVectorStore 1).Add [[(0:ℚ)]] ["a"]
      s.Query [0] 2) = Except.error "index out of range" := by
  rfl

/-- C2 amended: for an index of `n ≥ 1` vectors and `k > n`, `knn_search`
returns a length-`k` id array whose first `n` entries are all stored ids
in ascending-distance order and whose last `k - n` entries are the `-1`
sentinel, and `query(q, k)` then faults on the sentinel document lookup
(an out-of-range runtime error) instead of returning the `n` documents. -/
theorem claim_C2_amended (dim k : ℕ) (vs : List (List ℚ)) (ds : List String) (q : List ℚ)
    (s : CGoStore)
    (hvs : ∀ v ∈ vs, v.length = dim) (hq : q.length = dim)
    (hn : vs.length = ds.length) (hn1 : 1 ≤ vs.length) (hkn : vs.length < k)
    (hadd : (NewVectorStore dim).Add vs ds = .ok s) :
    knn_search (create_index vs) q k
      = (isortD (pairsOf vs q)).map (fun p => p.2)
        ++ List.replicate (k - vs.length) (-1 : Int) ∧
    s.Query q k = .error "index out of range" := by
  have hne : ¬ vs.length = 0 := by omega
  have hs : s = ⟨dim, some (create_index vs), ds⟩ := by
    simp only [CGoStore.Add, NewVectorStore, Option.isSome_none, Bool.false_eq_true,
      if_false, if_neg hne] at hadd
    exact (Except.ok.injEq _ _).mp hadd.symm |>.symm ▸ rfl
  subst hs
  have hcond : ¬((create_index vs).use_hnsw_optimization = true ∧
      (create_index vs).hnsw_graph.isSome) := by
    simp [create_index]
  have hisort_len : (isortD (pairsOf vs q)).length = vs.length := by
    rw [isortD_length, pairsOf_length]
  have hknn : knn_search (create_index vs) q k
      = (isortD (pairsOf vs q)).map (fun p => p.2)
        ++ List.replicate (k - vs.length) (-1 : Int) := by
    rw [knn_search, if_neg hcond, bruteForceKnn_eq vs q k (pairsOf_finite hvs hq),
      List.take_of_length_le (by omega)]
  refine ⟨hknn, ?_⟩
  show CGoStore.Query _ q k = _
  simp only [CGoStore.Query, hknn]
  obtain ⟨m, hm⟩ : ∃ m, k - vs.length = m + 1 := ⟨k - vs.length - 1, by omega⟩
  rw [hm, List.replicate_succ]
  apply mapM_append_error
  · intro i hi
    rcases List.mem_map.mp hi with ⟨p, hp, rfl⟩
    obtain ⟨j, hj, rfl⟩ := mem_pairsOf ((isortD_perm _).mem_iff.mp hp)
    refine ⟨ds.getD ((j:Int)).toNat "", ?_⟩
    rw [if_pos]
    exact ⟨Int.ofNat_nonneg j, by rw [Int.toNat_ofNat]; omega⟩
  · apply mapM_error_cons
    rw [if_neg]
    intro h
    exact absurd h.1 (by decide)

/-- Witness for C2 amended: one stored vector, `k = 2`. -/
theorem claim_C2_amended_witness :
    knn_search (create_index [[(0:ℚ)]]) [0] 2
      = (isortD (pairsOf [[(0:ℚ)]] [0])).map (fun p => p.2)
        ++ List.replicate (2 - [[(0:ℚ)]].length) (-1 : Int) ∧
    (CGoStore.mk 1 (some (create_index [[(0:ℚ)]])) ["a"]).Query [0] 2
      = .error "index out of range" :=
  claim_C2_amended 1 2 [[0]] ["a"] [0] _
    (by intro v hv; rcases List.mem_cons.mp hv with rfl | hv; · rfl
        · simp at hv)
    rfl rfl (le_refl 1) (by decide) rfl

/-! ## Claim C3 -/

/-- C3 counterexample: `new(3); add([[1,2]], ["x"])` does not return an
error — the source performs no dimension check; the call succeeds and
installs the two-dimensional vector in the index. -/
theorem claim_C3_counterexample :
    (NewVectorStore 3).Add [[(1:ℚ), 2]] ["x"]
      = .ok ⟨3, some (create_index [[(1:ℚ), 2]]), ["x"]⟩ := by
  rfl

/-- Full characterisation of `Add`: it always succeeds, replacing the
documents and installing `create_index` over exactly the given vectors
(nil index for an empty batch); no validation of any kind happens. -/
theorem Add_eq (s : CGoStore) (vectors : List (List ℚ))
    (documents : List String) :
    s.Add vectors documents
      = .ok { dim := s.dim,
              index := if vectors.length = 0 then none
                       else some (create_index vectors),
              docs := documents } := by
  unfold CGoStore.Add CGoStore.Close
  by_cases hi : s.index.isSome <;> by_cases h : vectors.length = 0 <;> simp [hi, h]

/-- C3 amended: `Add` performs no dimension validation at all: for every
prior store state and any vectors (of any lengths), it succeeds,
replacing the documents and installing `create_index` over exactly the
given vectors (or a nil index when the batch is empty).  Mismatched
vectors surface only at query time, where the distance against them is
the `FLT_MAX` sentinel. -/
theorem claim_C3_amended (s : CGoStore) (vectors : List (List ℚ))
    (documents : List String) :
    s.Add vectors documents
      = .ok { dim := s.dim,
              index := if vectors.length = 0 then none
                       else some (create_index vectors),
              docs := documents } :=
  Add_eq s vectors documents

/-! ## Claim C4 -/

/-- C4 counterexample: `query(q, 0)` on a non-empty index does not
return an error — it succeeds with the empty list (`knn_search` with
`k = 0` returns an empty id array and the document loop never runs). -/
theorem claim_C4_counterexample :
    (do
      let s ← (NewVectorStore 1).Add [[(0:ℚ)]] ["a"]
      s.Query [0] 0) = Except.ok [] := by
  rfl

theorem foldl_knnInsert_nil (ps : List DistId) :
    ps.foldl (fun acc p => knnInsert p.1 p.2 acc) [] = [] := by
  induction ps with
  | nil => rfl
  | cons p rest ih => simpa [knnInsert] using ih

/-- C4 amended: `query` errors exactly when the index pointer is nil — a
freshly created store, or a store whose last `add` had empty arrays.
`query(q, 0)` on a non-empty index is not an error: it succeeds with the
empty result list.  The spec's concrete scenario
(`new(4); query([0,0,0,0], 1)` errors) does hold. -/
theorem claim_C4_amended (dim : ℕ) (s t s' t' : CGoStore)
    (vs : List (List ℚ)) (ds : List String) (q : List ℚ) (k : ℕ)
    (hempty : s.Add [] [] = .ok s') (hvs : vs ≠ [])
    (hadd : t.Add vs ds = .ok t') :
    (NewVectorStore dim).Query q k = .error "index is not initialized" ∧
    s'.Query q k = .error "index is not initialized" ∧
    t'.Query q 0 = .ok [] ∧
    (NewVectorStore 4).Query [0, 0, 0, 0] 1 = .error "index is not initialized" := by
  have hs' : s' = ⟨s.dim, none, []⟩ := by
    rw [Add_eq] at hempty
    simpa using ((Except.ok.injEq _ _).mp hempty).symm
  have ht' : t' = ⟨t.dim, some (create_index vs), ds⟩ := by
    rw [Add_eq] at hadd
    have hlen : ¬ vs.length = 0 := by
      intro h; exact hvs (List.length_eq_zero.mp h)
    rw [if_neg hlen] at hadd
    simpa using ((Except.ok.injEq _ _).mp hadd).symm
  refine ⟨rfl, ?_, ?_, rfl⟩
  · subst hs'; rfl
  · subst ht'
    have hcond : ¬((create_index vs).use_hnsw_optimization = true ∧
        (create_index vs).hnsw_graph.isSome) := by
      simp [create_index]
    have hknn0 : knn_search (create_index vs) q 0 = [] := by
      rw [knn_search, if_neg hcond]
      simp [bruteForceKnn, foldl_knnInsert_nil]
    show CGoStore.Query _ q 0 = _
    simp only [CGoStore.Query, hknn0]
    rfl

/-- Witness for C4 amended. -/
theorem claim_C4_amended_witness :
    (NewVectorStore 2).Query [0] 3 = .error "index is not initialized" ∧
    (CGoStore.mk 1 none []).Query [0] 3 = .error "index is not initialized" ∧
    (CGoStore.mk 1 (some (create_index [[(0:ℚ)]])) ["a"]).Query [0] 0 = .ok [] ∧
    (NewVectorStore 4).Query [0, 0, 0, 0] 1 = .error "index is not initialized" :=
  claim_C4_amended 2 (NewVectorStore 1) (NewVectorStore 1) _ _ [[0]] ["a"] [0] 3
    rfl (by decide) rfl

/-! ## Claim C6 -/

/-- C6: every vector store created through the public Go API starts with
a nil index, and every index `Add` installs is built by `create_index`,
which clears `use_hnsw_optimization` and leaves `hnsw_graph` nil; hence
every `Query` runs the brute-force path of `knn_search` and the HNSW
search branch is unreachable through the public interface. -/
theorem claim_C6 (dim : ℕ) (s s' : CGoStore) (vs : List (List ℚ))
    (ds : List String) (hadd : s.Add vs ds = .ok s') :
    (NewVectorStore dim).index = none ∧
    ∀ idx, s'.index = some idx →
      idx.use_hnsw_optimization = false ∧
      idx.hnsw_graph = none ∧
      ∀ q k, knn_search idx q k = bruteForceKnn idx q k := by
  refine ⟨rfl, ?_⟩
  intro idx hidx
  rw [Add_eq] at hadd
  have hs' := ((Except.ok.injEq _ _).mp hadd).symm
  subst hs'
  by_cases h : vs.length = 0
  · rw [if_pos h] at hidx
    simp at hidx
  · rw [if_neg h] at hidx
    have : idx = create_index vs := by simpa using hidx.symm
    subst this
    refine ⟨rfl, rfl, ?_⟩
    intro q k
    rw [knn_search, if_neg]
    simp [create_index]

/-- Witness for C6. -/
theorem claim_C6_witness :
    (NewVectorStore 2).index = none ∧
    ∀ idx, (CGoStore.mk 2 (some (create_index [[(0:ℚ), 0]])) ["a"]).index = some idx →
      idx.use_hnsw_optimization = false ∧
      idx.hnsw_graph = none ∧
      ∀ q k, knn_search idx q k = bruteForceKnn idx q k :=
  claim_C6 2 (NewVectorStore 2) _ [[(0:ℚ), 0]] ["a"] rfl

/-! ## Claim C7 — the in-memory embedding cache with explicit slices

Go slices are references into mutable storage, so the defensive-copy
behaviour of `InMemoryCache.Get` / `InMemoryCache.Set` is modelled over
an explicit heap of float slices: a slice value is an address, `copy`
allocates a fresh address holding the same contents, and mutating a
slice is an in-place write at its address. -/

/-- The heap of float32 slices; an address is an index into `slices`. -/
structure SliceHeap where
  slices : List (List ℚ)
deriving Repr, DecidableEq

/-- Allocate a fresh slice (`make` + `copy` in the source). -/
def SliceHeap.alloc (h : SliceHeap) (v : List ℚ) : SliceHeap × ℕ :=
  ({ slices := h.slices ++ [v] }, h.slices.length)

/-- Read the contents a slice address refers to. -/
def SliceHeap.read (h : SliceHeap) (a : ℕ) : List ℚ :=
  h.slices.getD a []

/-- Mutate the slice at an address in place (what a caller does when it
writes through a slice it holds). -/
def SliceHeap.write (h : SliceHeap) (a : ℕ) (v : List ℚ) : SliceHeap :=
  { slices := h.slices.set a v }

/-- The `InMemoryCache` store: key to the address of the internally
retained slice (the Go `map[string][]float32`). -/
structure InMemoryCache where
  store : List (String × ℕ)
deriving Repr, DecidableEq

/-- Model of `NewInMemoryCache`. -/
def NewInMemoryCache : InMemoryCache := ⟨[]⟩

/-- Model of `InMemoryCache.Get`: on a hit, allocate a fresh copy of the
stored slice and hand its address to the caller. -/
def InMemoryCache.Get (c : InMemoryCache) (h : SliceHeap) (key : String) :
    Option ℕ × SliceHeap :=
  match c.store.lookup key with
  | none => (none, h)
  | some a =>
    let copied := h.alloc (h.read a)
    (some copied.2, copied.1)

/-- Model of `InMemoryCache.Set`: copy the caller's slice into a fresh
internal slice and map the key to it (prepending implements the Go map
overwrite, since `lookup` takes the first match). -/
def InMemoryCache.Set (c : InMemoryCache) (h : SliceHeap) (key : String)
    (embedding : ℕ) : InMemoryCache × SliceHeap :=
  let copied := h.alloc (h.read embedding)
  ({ store := (key, copied.2) :: c.store }, copied.1)

theorem read_append_last (l : List (List ℚ)) (v : List ℚ) :
    (SliceHeap.mk (l ++ [v])).read l.length = v := by
  simp [SliceHeap.read, List.getD_eq_getElem?_getD, List.getElem?_append_right (le_refl _)]

theorem read_append_left (l : List (List ℚ)) (v : List ℚ) (b : ℕ)
    (hb : b < l.length) :
    (SliceHeap.mk (l ++ [v])).read b = (SliceHeap.mk l).read b := by
  simp [SliceHeap.read, List.getD_eq_getElem?_getD, List.getElem?_append_left hb]

theorem read_write_ne (h : SliceHeap) (a b : ℕ) (w : List ℚ) (hne : a ≠ b) :
    (h.write a w).read b = h.read b := by
  simp [SliceHeap.read, SliceHeap.write, List.getD_eq_getElem?_getD,
    List.getElem?_set_ne hne]

/-- On a hit, `Get` allocates a fresh copy of the stored slice. -/
theorem Get_hit (c : InMemoryCache) (h : SliceHeap) (key : String) (n : ℕ)
    (hl : c.store.lookup key = some n) :
    c.Get h key = (some h.slices.length, ⟨h.slices ++ [h.read n]⟩) := by
  simp [InMemoryCache.Get, hl, SliceHeap.alloc]

/-- C7: after `set(key, v)`, `get(key)` returns `(copy of v, true)`, and
neither mutating the slice passed to `set` nor mutating the slice
returned by `get` changes what a later `get(key)` returns. -/
theorem claim_C7 (c : InMemoryCache) (h : SliceHeap) (key : String) (a : ℕ)
    (c₁ : InMemoryCache) (h₁ : SliceHeap)
    (ha : a < h.slices.length) (hset : c.Set h key a = (c₁, h₁)) :
    (∃ r₁ h₂, c₁.Get h₁ key = (some r₁, h₂) ∧ h₂.read r₁ = h.read a ∧
      ∀ w, ∃ r₂ h₄, c₁.Get (h₂.write r₁ w) key = (some r₂, h₄) ∧
        h₄.read r₂ = h.read a) ∧
    ∀ w, ∃ r h', c₁.Get (h₁.write a w) key = (some r, h') ∧
      h'.read r = h.read a := by
  obtain ⟨rfl, rfl⟩ : c₁ = ⟨(key, h.slices.length) :: c.store⟩ ∧
      h₁ = ⟨h.slices ++ [h.read a]⟩ := by
    have hs := hset.symm
    simp only [InMemoryCache.Set, SliceHeap.alloc, Prod.mk.injEq] at hs
    exact ⟨hs.1, hs.2⟩
  set n := h.slices.length with hn
  set v := h.read a with hv
  set h₁ := SliceHeap.mk (h.slices ++ [v]) with hh₁
  have hlookup : (InMemoryCache.mk ((key, n) :: c.store)).store.lookup key
      = some n := by
    simp [List.lookup]
  have hread₁ : h₁.read n = v := read_append_last _ _
  constructor
  · -- first Get: fresh copy at address |h₁|
    refine ⟨h₁.slices.length, ⟨h₁.slices ++ [v]⟩, ?_, ?_, ?_⟩
    · rw [Get_hit _ _ _ _ hlookup, hread₁]
    · exact read_append_last _ _
    · -- mutate the returned slice, then Get again
      intro w
      set h₂ := SliceHeap.mk (h₁.slices ++ [v]) with hh₂
      set h₃ := h₂.write h₁.slices.length w with hh₃
      have hne : h₁.slices.length ≠ n := by
        rw [hh₁, hn]; simp
      have hn_lt : n < h₁.slices.length := by
        rw [hh₁, hn]; simp
      have hread₃ : h₃.read n = v := by
        rw [hh₃, read_write_ne _ _ _ _ hne, hh₂, read_append_left _ _ _ hn_lt]
        exact hread₁
      refine ⟨h₃.slices.length, ⟨h₃.slices ++ [v]⟩, ?_, ?_⟩
      · rw [Get_hit _ _ _ _ hlookup, hread₃]
      · exact read_append_last _ _
  · -- mutate the slice that was passed to Set, then Get
    intro w
    set h' := h₁.write a w with hh'
    have hne : a ≠ n := by omega
    have hread' : h'.read n = v := by
      rw [hh', read_write_ne _ _ _ _ hne]
      exact hread₁
    refine ⟨h'.slices.length, ⟨h'.slices ++ [v]⟩, ?_, ?_⟩
    · rw [Get_hit _ _ _ _ hlookup, hread']
    · exact read_append_last _ _

/-- Witness for C7: one existing slice `[1, 2]`, cached under `"k"`. -/
theorem claim_C7_witness :
    (∃ r₁ h₂,
      (InMemoryCache.mk [("k", 1)]).Get (SliceHeap.mk [[(1:ℚ), 2], [(1:ℚ), 2]]) "k"
          = (some r₁, h₂) ∧
      h₂.read r₁ = (SliceHeap.mk [[(1:ℚ), 2]]).read 0 ∧
      ∀ w, ∃ r₂ h₄,
        (InMemoryCache.mk [("k", 1)]).Get (h₂.write r₁ w) "k" = (some r₂, h₄) ∧
        h₄.read r₂ = (SliceHeap.mk [[(1:ℚ), 2]]).read 0) ∧
    ∀ w, ∃ r h',
      (InMemoryCache.mk [("k", 1)]).Get
          ((SliceHeap.mk [[(1:ℚ), 2], [(1:ℚ), 2]]).write 0 w) "k" = (some r, h') ∧
      h'.read r = (SliceHeap.mk [[(1:ℚ), 2]]).read 0 :=
  claim_C7 (InMemoryCache.mk []) (SliceHeap.mk [[(1:ℚ), 2]]) "k" 0
    (InMemoryCache.mk [("k", 1)]) (SliceHeap.mk [[(1:ℚ), 2], [(1:ℚ), 2]])
    (by decide) rfl

/-! ## Claims C8 and C9 — the cache key (cache_key.go)

`ComputeKey` concatenates path and content with `":"`, hashes with
SHA-256 and hex-encodes.  SHA-256 (FIPS 180-4, as Go's `crypto/sha256`
computes it) is embedded executably over `ℕ` with explicit reduction
modulo `2^32`; bytes are the UTF-8 encoding of the string, as Go's
`[]byte(input)` conversion produces. -/

/-- Reduce a machine word modulo `2^32`. -/
def w32 (n : ℕ) : ℕ := n % 4294967296

/-- 32-bit right rotation. -/
def rotr32 (x n : ℕ) : ℕ := w32 ((x >>> n) ||| (x <<< (32 - n)))

def shaCh (x y z : ℕ) : ℕ := (x &&& y) ^^^ ((x ^^^ 4294967295) &&& z)

def shaMaj (x y z : ℕ) : ℕ := (x &&& y) ^^^ (x &&& z) ^^^ (y &&& z)

def bigSigma0 (x : ℕ) : ℕ := rotr32 x 2 ^^^ rotr32 x 13 ^^^ rotr32 x 22

def bigSigma1 (x : ℕ) : ℕ := rotr32 x 6 ^^^ rotr32 x 11 ^^^ rotr32 x 25

def smallSigma0 (x : ℕ) : ℕ := rotr32 x 7 ^^^ rotr32 x 18 ^^^ (x >>> 3)

def smallSigma1 (x : ℕ) : ℕ := rotr32 x 17 ^^^ rotr32 x 19 ^^^ (x >>> 10)

/-- The 64 SHA-256 round constants (FIPS 180-4, written in decimal). -/
def shaK : List ℕ :=
  [1116352408, 1899447441, 3049323471, 3921009573, 961987163, 1508970993,
   2453635748, 2870763221, 3624381080, 310598401, 607225278, 1426881987,
   1925078388, 2162078206, 2614888103, 3248222580, 3835390401, 4022224774,
   264347078, 604807628, 770255983, 1249150122, 1555081692, 1996064986,
   2554220882, 2821834349, 2952996808, 3210313671, 3336571891, 3584528711,
   113926993, 338241895, 666307205, 773529912, 1294757372, 1396182291,
   1695183700, 1986661051, 2177026350, 2456956037, 2730485921, 2820302411,
   3259730800, 3345764771, 3516065817, 3600352804, 4094571909, 275423344,
   430227734, 506948616, 659060556, 883997877, 958139571, 1322822218,
   1537002063, 1747873779, 1955562222, 2024104815, 2227730452, 2361852424,
   2428436474, 2756734187, 3204031479, 3329325298]

/-- The eight 32-bit words of a SHA-256 chaining state. -/
structure Sha256State where
  s0 : ℕ
  s1 : ℕ
  s2 : ℕ
  s3 : ℕ
  s4 : ℕ
  s5 : ℕ
  s6 : ℕ
  s7 : ℕ
deriving Repr, DecidableEq

/-- The SHA-256 initial hash value (decimal). -/
def shaInit : Sha256State :=
  ⟨1779033703, 3144134277, 1013904242, 2773480762,
   1359893119, 2600822924, 528734635, 1541459225⟩

/-- Group bytes into big-endian 32-bit words. -/
def bytesToWords : List ℕ → List ℕ
  | b0 :: b1 :: b2 :: b3 :: rest =>
    ((b0 <<< 24) ||| (b1 <<< 16) ||| (b2 <<< 8) ||| b3) :: bytesToWords rest
  | _ => []

/-- Extend the 16 message words to 64 (the given number of steps). -/
def extendSchedule : ℕ → List ℕ → List ℕ
  | 0, w => w
  | i + 1, w =>
    let t := w32 (smallSigma1 (w.getD (w.length - 2) 0) + w.getD (w.length - 7) 0
      + smallSigma0 (w.getD (w.length - 15) 0) + w.getD (w.length - 16) 0)
    extendSchedule i (w ++ [t])

/-- One SHA-256 round on the working variables. -/
def shaRound (st : Sha256State) (kw : ℕ × ℕ) : Sha256State :=
  let t1 := w32 (st.s7 + bigSigma1 st.s4 + shaCh st.s4 st.s5 st.s6 + kw.1 + kw.2)
  let t2 := w32 (bigSigma0 st.s0 + shaMaj st.s0 st.s1 st.s2)
  ⟨w32 (t1 + t2), st.s0, st.s1, st.s2, w32 (st.s3 + t1), st.s4, st.s5, st.s6⟩

/-- Compress one 64-byte block into the chaining state. -/
def compressBlock (st : Sha256State) (block : List ℕ) : Sha256State :=
  let ws := extendSchedule 48 (bytesToWords block)
  let f := (shaK.zip ws).foldl shaRound st
  ⟨w32 (st.s0 + f.s0), w32 (st.s1 + f.s1), w32 (st.s2 + f.s2), w32 (st.s3 + f.s3),
   w32 (st.s4 + f.s4), w32 (st.s5 + f.s5), w32 (st.s6 + f.s6), w32 (st.s7 + f.s7)⟩

/-- Split a byte list into 64-byte blocks. -/
def chunks64 (l : List ℕ) : List (List ℕ) :=
  if h : l = [] then []
  else l.take 64 :: chunks64 (l.drop 64)
termination_by l.length
decreasing_by
  have : l.length ≠ 0 := fun h0 => h (List.length_eq_zero.mp h0)
  simp only [List.length_drop]
  omega

/-- Big-endian byte decomposition of fixed width. -/
def beBytes (count n : ℕ) : List ℕ :=
  (List.range count).map (fun i => (n >>> (8 * (count - 1 - i))) &&& 255)

/-- SHA-256 padding: `0x80`, zeros to 56 mod 64, 8-byte big-endian bit
length. -/
def padMessage (m : List ℕ) : List ℕ :=
  let zeros := (64 - ((m.length + 9) % 64)) % 64
  m ++ [128] ++ List.replicate zeros 0 ++ beBytes 8 (8 * m.length)

/-- SHA-256 digest (32 bytes) of a byte list. -/
def sha256Bytes (m : List ℕ) : List ℕ :=
  let f := (chunks64 (padMessage m)).foldl compressBlock shaInit
  beBytes 4 f.s0 ++ beBytes 4 f.s1 ++ beBytes 4 f.s2 ++ beBytes 4 f.s3
    ++ beBytes 4 f.s4 ++ beBytes 4 f.s5 ++ beBytes 4 f.s6 ++ beBytes 4 f.s7

/-- The lowercase hex digit table of Go's `encoding/hex`
(`"0123456789abcdef"`), as a function of the nibble value. -/
def hexDigitChar (n : ℕ) : Char :=
  if n < 10 then Char.ofNat (48 + n) else Char.ofNat (87 + n)

/-- Model of `hex.EncodeToString`: high nibble first. -/
def EncodeToString (bytes : List ℕ) : String :=
  String.mk (bytes.flatMap (fun b => [hexDigitChar ((b >>> 4) &&& 15), hexDigitChar (b &&& 15)]))

/-- UTF-8 encoding of one character, as Go's `[]byte(string)` yields. -/
def utf8EncodeCharNat (c : Char) : List ℕ :=
  let n := c.toNat
  if n < 128 then [n]
  else if n < 2048 then [192 ||| (n >>> 6), 128 ||| (n &&& 63)]
  else if n < 65536 then
    [224 ||| (n >>> 12), 128 ||| ((n >>> 6) &&& 63), 128 ||| (n &&& 63)]
  else
    [240 ||| (n >>> 18), 128 ||| ((n >>> 12) &&& 63),
     128 ||| ((n >>> 6) &&& 63), 128 ||| (n &&& 63)]

/-- UTF-8 bytes of a string. -/
def utf8Bytes (s : String) : List ℕ :=
  s.data.flatMap utf8EncodeCharNat

/-- Model of `cache.ComputeKey`: `fmt.Sprintf("%s:%s", ...)` is the
plain concatenation, then SHA-256, then lowercase hex. -/
def ComputeKey (filePath chunkContent : String) : String :=
  let input := filePath ++ ":" ++ chunkContent
  EncodeToString (sha256Bytes (utf8Bytes input))

theorem beBytes_length (count n : ℕ) : (beBytes count n).length = count := by
  simp [beBytes]

theorem sha256Bytes_length (m : List ℕ) : (sha256Bytes m).length = 32 := by
  simp [sha256Bytes, beBytes_length]

theorem flatMap_pair_length (g : ℕ → Char × Char) :
    ∀ l : List ℕ, (l.flatMap (fun b => [(g b).1, (g b).2])).length = 2 * l.length
  | [] => rfl
  | b :: t => by
    simp only [List.flatMap_cons, List.length_append, flatMap_pair_length g t,
      List.length_cons, List.length_nil]
    omega

theorem EncodeToString_length (bytes : List ℕ) :
    (EncodeToString bytes).length = 2 * bytes.length := by
  show (String.mk _).length = _
  have h := flatMap_pair_length
    (fun b => (hexDigitChar ((b >>> 4) &&& 15), hexDigitChar (b &&& 15))) bytes
  simpa [EncodeToString, String.length] using h

/-! ## Claim C8 -/

/-- C8: the cache key is the hex-encoded SHA-256 of
`file_path ++ ":" ++ content`; equal `(path, content)` pairs yield equal
keys; every key has hex length 64. -/
theorem claim_C8 (p c p' c' : String) (hpc : (p, c) = (p', c')) :
    ComputeKey p c = EncodeToString (sha256Bytes (utf8Bytes (p ++ ":" ++ c))) ∧
    (ComputeKey p c).length = 64 ∧
    ComputeKey p c = ComputeKey p' c' := by
  refine ⟨rfl, ?_, ?_⟩
  · show (EncodeToString (sha256Bytes (utf8Bytes (p ++ ":" ++ c)))).length = 64
    rw [EncodeToString_length, sha256Bytes_length]
  · rw [(Prod.mk.injEq _ _ _ _).mp hpc |>.1, (Prod.mk.injEq _ _ _ _).mp hpc |>.2]

/-- Witness for C8. -/
theorem claim_C8_witness :
    ComputeKey "a" "b" = EncodeToString (sha256Bytes (utf8Bytes ("a" ++ ":" ++ "b"))) ∧
    (ComputeKey "a" "b").length = 64 ∧
    ComputeKey "a" "b" = ComputeKey "a" "b" :=
  claim_C8 "a" "b" "a" "b" rfl

/-! ## Claim C9 -/

/-- C9: the cache key function is not injective on
`(file_path, content)` pairs: the distinct pairs `("a:b", "c")` and
`("a", "b:c")` concatenate to the same `"a:b:c"` and therefore collide. -/
theorem claim_C9 :
    ComputeKey "a:b" "c" = ComputeKey "a" "b:c" ∧
    (("a:b" : String), ("c" : String)) ≠ (("a" : String), ("b:c" : String)) := by
  constructor
  · have h : ("a:b" ++ ":" ++ "c" : String) = ("a" ++ ":" ++ "b:c" : String) := rfl
    show EncodeToString (sha256Bytes (utf8Bytes ("a:b" ++ ":" ++ "c")))
      = EncodeToString (sha256Bytes (utf8Bytes ("a" ++ ":" ++ "b:c")))
    rw [h]
  · decide

/-! ## Claim C5 — the completion service (service.go)

The service state carries the vector store, the embedding cache (value
semantics suffice here: the defensive copies of §C7 are identities on
immutable Lean lists) and the staged inventory.  The Go inventory is a
`map[string][]indexer.Chunk` with unspecified iteration order; the model
fixes one order by keeping an association list (`reIndex` only requires
some stable flattening order).  The embedder and the chunker are
external effects (network, file system) and are passed as parameters:
`embed` returns `none` where the Go embedder returns an error, and
`IndexFile` receives the chunk list a successful chunker call produced. -/

/-- A chunk record (indexer/chunker.go). -/
structure Chunk where
  FilePath : String
  Content : String
  StartLine : Int
  EndLine : Int
deriving Repr, DecidableEq

/-- Value-semantics view of `InMemoryCache.Get`. -/
def cacheGet (store : List (String × List ℚ)) (key : String) : Option (List ℚ) :=
  store.lookup key

/-- Value-semantics view of `InMemoryCache.Set` (prepend = map overwrite,
since lookup takes the first hit). -/
def cacheSet (store : List (String × List ℚ)) (key : String) (v : List ℚ) :
    List (String × List ℚ) :=
  (key, v) :: store

/-- The completion-service state (`CompletionService` minus the external
embedder / LLM collaborators). -/
structure CompletionService where
  db : CGoStore
  cache : List (String × List ℚ)
  indexedData : List (String × List Chunk)
deriving Repr, DecidableEq

/-- Flatten the inventory in its (stable) iteration order — the
`for _, list := range s.indexedData` loop of `reIndex`. -/
def flattenChunks (inv : List (String × List Chunk)) : List Chunk :=
  inv.foldl (fun acc e => acc ++ e.2) []

/-- One iteration of the chunk loop of `reIndex`: cache hit, or embed
and cache on success, or drop the chunk on an embedding error.  The
accumulator is (cache, embeddings, documents). -/
def reIndexStep (embed : String → Option (List ℚ))
    (st : List (String × List ℚ) × List (List ℚ) × List String) (chunk : Chunk) :
    List (String × List ℚ) × List (List ℚ) × List String :=
  let key := ComputeKey chunk.FilePath chunk.Content
  match cacheGet st.1 key with
  | some emb => (st.1, st.2.1 ++ [emb], st.2.2 ++ [chunk.Content])
  | none =>
    match embed chunk.Content with
    | none => st
    | some newEmb =>
      (cacheSet st.1 key newEmb, st.2.1 ++ [newEmb], st.2.2 ++ [chunk.Content])

/-- Model of `CompletionService.reIndex`: flatten the inventory; with no
chunks clear the store via `Add(nil, nil)`; otherwise embed every chunk
(cache-aware, dropping failures) and — only when at least one embedding
survived — rebuild the store. -/
def CompletionService.reIndex (embed : String → Option (List ℚ))
    (s : CompletionService) : Except String CompletionService :=
  let allChunks := flattenChunks s.indexedData
  if allChunks.length = 0 then
    match s.db.Add [] [] with
    | .error e => .error e
    | .ok db' => .ok { s with db := db' }
  else
    let st := allChunks.foldl (reIndexStep embed) (s.cache, [], [])
    if st.2.1.length = 0 then
      .ok { s with cache := st.1 }
    else
      match s.db.Add st.2.1 st.2.2 with
      | .error e => .error ("failed to add batch: " ++ e)
      | .ok db' => .ok { s with db := db', cache := st.1 }

/-- Model of `CompletionService.IndexFile` on a successful chunker call:
replace the staged chunks for the path and rebuild. -/
def CompletionService.IndexFile (embed : String → Option (List ℚ))
    (s : CompletionService) (path : String) (chunks : List Chunk) :
    Except String CompletionService :=
  CompletionService.reIndex embed
    { s with indexedData :=
        (s.indexedData.eraseP (fun e => e.1 == path)) ++ [(path, chunks)] }

/-- Model of `CompletionService.DeleteFile`: no-op (no rebuild) when the
path is not staged, otherwise remove it and rebuild. -/
def CompletionService.DeleteFile (embed : String → Option (List ℚ))
    (s : CompletionService) (path : String) : Except String CompletionService :=
  if (s.indexedData.lookup path).isNone then .ok s
  else
    CompletionService.reIndex embed
      { s with indexedData := s.indexedData.eraseP (fun e => e.1 == path) }

/-- Number of vectors the store's C index holds. -/
def vectorCount (s : CGoStore) : ℕ :=
  match s.index with
  | none => 0
  | some idx => idx.len

/-- C5 counterexample: a reachable state (inventory staged, store
populated, cache empty — exactly the shape `LoadIndex` leaves behind)
on which re-indexing a changed file with a failing embedder leaves the
old two… one-pair index in place while the inventory now stages two
chunks: the index does not contain one pair per inventory chunk. -/
theorem claim_C5_counterexample :
    CompletionService.IndexFile (fun _ => none)
        ⟨⟨1, some (create_index [[(0:ℚ)]]), ["old"]⟩, [],
          [("f1", [⟨"f1", "a", 1, 2⟩])]⟩
        "f1" [⟨"f1", "b", 1, 2⟩, ⟨"f1", "c", 3, 4⟩]
      = .ok ⟨⟨1, some (create_index [[(0:ℚ)]]), ["old"]⟩, [],
          [("f1", [⟨"f1", "b", 1, 2⟩, ⟨"f1", "c", 3, 4⟩])]⟩ ∧
    (flattenChunks [("f1", [⟨"f1", "b", 1, 2⟩, ⟨"f1", "c", 3, 4⟩])]).length = 2 ∧
    (⟨1, some (create_index [[(0:ℚ)]]), ["old"]⟩ : CGoStore).docs.length = 1 ∧
    (⟨1, some (create_index [[(0:ℚ)]]), ["old"]⟩ : CGoStore).docs
      ≠ (flattenChunks [("f1", [⟨"f1", "b", 1, 2⟩, ⟨"f1", "c", 3, 4⟩])]).map
          (fun ch => ch.Content) := by
  refine ⟨rfl, rfl, rfl, ?_⟩
  decide

theorem reIndexStep_fold (embed : String → Option (List ℚ)) :
    ∀ (chunks : List Chunk), (∀ ch ∈ chunks, (embed ch.Content).isSome) →
      ∀ (cache : List (String × List ℚ)) (es : List (List ℚ)) (ds : List String),
        ∃ (cache' : List (String × List ℚ)) (es' : List (List ℚ)),
          chunks.foldl (reIndexStep embed) (cache, es, ds)
            = (cache', es ++ es', ds ++ chunks.map (fun ch => ch.Content)) ∧
          es'.length = chunks.length
  | [], _, cache, es, ds => ⟨cache, [], by simp, rfl⟩
  | ch :: rest, hem, cache, es, ds => by
    have hrest : ∀ c ∈ rest, (embed c.Content).isSome :=
      fun c hc => hem c (List.mem_cons_of_mem ch hc)
    simp only [List.foldl_cons]
    set key := ComputeKey ch.FilePath ch.Content with hkey
    match hhit : cacheGet cache key with
    | some emb =>
      obtain ⟨cache', es', hfold, hlen⟩ :=
        reIndexStep_fold embed rest hrest cache (es ++ [emb]) (ds ++ [ch.Content])
      refine ⟨cache', emb :: es', ?_, by simp [hlen]⟩
      rw [show reIndexStep embed (cache, es, ds) ch
          = (cache, es ++ [emb], ds ++ [ch.Content]) from by
        simp only [reIndexStep, ← hkey, hhit]]
      rw [hfold]
      simp
    | none =>
      obtain ⟨newEmb, hnew⟩ := Option.isSome_iff_exists.mp
        (hem ch (List.mem_cons_self ch rest))
      obtain ⟨cache', es', hfold, hlen⟩ :=
        reIndexStep_fold embed rest hrest (cacheSet cache key newEmb)
          (es ++ [newEmb]) (ds ++ [ch.Content])
      refine ⟨cache', newEmb :: es', ?_, by simp [hlen]⟩
      rw [show reIndexStep embed (cache, es, ds) ch
          = (cacheSet cache key newEmb, es ++ [newEmb], ds ++ [ch.Content]) from by
        simp only [reIndexStep, ← hkey, hhit, hnew]]
      rw [hfold]
      simp

/-- After a rebuild in which every staged chunk embeds (via cache or
embedder), the store holds exactly one vector+document pair per chunk,
documents being the chunk contents in flattening order. -/
theorem reIndex_spec (embed : String → Option (List ℚ)) (s : CompletionService)
    (hem : ∀ ch ∈ flattenChunks s.indexedData, (embed ch.Content).isSome) :
    ∃ s', s.reIndex embed = .ok s' ∧
      s'.indexedData = s.indexedData ∧
      s'.db.docs = (flattenChunks s.indexedData).map (fun ch => ch.Content) ∧
      vectorCount s'.db = (flattenChunks s.indexedData).length := by
  unfold CompletionService.reIndex
  by_cases hz : (flattenChunks s.indexedData).length = 0
  · rw [if_pos hz, Add_eq]
    have hnil : flattenChunks s.indexedData = [] := List.length_eq_zero.mp hz
    refine ⟨_, rfl, rfl, ?_, ?_⟩ <;> simp [hnil, vectorCount]
  · rw [if_neg hz]
    obtain ⟨cache', es', hfold, hlen⟩ :=
      reIndexStep_fold embed (flattenChunks s.indexedData) hem s.cache [] []
    rw [hfold]
    simp only [List.nil_append]
    have hes : ¬ es'.length = 0 := by omega
    rw [if_neg hes, Add_eq, if_neg hes]
    refine ⟨_, rfl, rfl, ?_, ?_⟩
    · rfl
    · simp [vectorCount, create_index, hlen]

/-- Every document a successful `Query` returns is one of the stored
documents. -/
theorem Query_ok_mem (st : CGoStore) (q : List ℚ) (k : ℕ) (res : List String)
    (h : st.Query q k = .ok res) : ∀ d ∈ res, d ∈ st.docs := by
  unfold CGoStore.Query at h
  match hidx : st.index with
  | none => rw [hidx] at h; cases h
  | some idx =>
    rw [hidx] at h
    refine mapM_ok_mem _ (fun b => b ∈ st.docs) ?_ _ res h
    intro i b hb
    by_cases hc : 0 ≤ i ∧ i.toNat < st.docs.length
    · rw [if_pos hc] at hb
      have hbe : b = st.docs.getD i.toNat "" := ((Except.ok.injEq _ _).mp hb).symm
      rw [hbe, List.getD_eq_getElem st.docs "" hc.2]
      exact List.getElem_mem hc.2
    · rw [if_neg hc] at hb
      cases hb

/-- C5 amended: provided every staged chunk's embedding is obtainable
(cache hit or successful embed), each mutation re-establishes the
one-pair-per-chunk invariant: the store documents are exactly the
inventory chunk contents in flattening order and the vector count
matches; `delete_file` of an absent path returns the state unchanged
(no rebuild); and after `delete_file`, every document any successful
query returns is the content of a chunk still in the inventory — so no
completion can return a document of the deleted file unless an
identical content survives elsewhere.  Without the embedding-success
proviso the invariant fails (see the counterexample): failing chunks
are silently dropped, and if every embedding fails the old index is
left in place entirely. -/
theorem claim_C5 (embed : String → Option (List ℚ)) (s : CompletionService)
    (pAbsent pDel pIdx : String) (chunks : List Chunk)
    (habs : (s.indexedData.lookup pAbsent).isNone)
    (hpres : (s.indexedData.lookup pDel).isSome)
    (hemDel : ∀ ch ∈ flattenChunks (s.indexedData.eraseP (fun e => e.1 == pDel)),
      (embed ch.Content).isSome)
    (hemIdx : ∀ ch ∈ flattenChunks
        ((s.indexedData.eraseP (fun e => e.1 == pIdx)) ++ [(pIdx, chunks)]),
      (embed ch.Content).isSome) :
    s.DeleteFile embed pAbsent = .ok s ∧
    (∃ s', s.DeleteFile embed pDel = .ok s' ∧
      s'.indexedData = s.indexedData.eraseP (fun e => e.1 == pDel) ∧
      s'.db.docs = (flattenChunks s'.indexedData).map (fun ch => ch.Content) ∧
      vectorCount s'.db = (flattenChunks s'.indexedData).length ∧
      ∀ q k res, s'.db.Query q k = .ok res →
        ∀ d ∈ res, d ∈ (flattenChunks s'.indexedData).map (fun ch => ch.Content)) ∧
    (∃ s', s.IndexFile embed pIdx chunks = .ok s' ∧
      s'.indexedData = (s.indexedData.eraseP (fun e => e.1 == pIdx)) ++ [(pIdx, chunks)] ∧
      s'.db.docs = (flattenChunks s'.indexedData).map (fun ch => ch.Content) ∧
      vectorCount s'.db = (flattenChunks s'.indexedData).length) := by
  refine ⟨?_, ?_, ?_⟩
  · unfold CompletionService.DeleteFile
    rw [if_pos habs]
  · unfold CompletionService.DeleteFile
    have hno : ¬ (s.indexedData.lookup pDel).isNone = true := by
      intro h
      rw [Option.isNone_iff_eq_none] at h
      rw [h] at hpres
      simp at hpres
    rw [if_neg hno]
    obtain ⟨s', h1, h2, h3, h4⟩ := reIndex_spec embed
      { s with indexedData := s.indexedData.eraseP (fun e => e.1 == pDel) } hemDel
    refine ⟨s', h1, h2, ?_, ?_, ?_⟩
    · rw [h3, h2]
    · rw [h4, h2]
    · intro q k res hres d hd
      have hmem := Query_ok_mem s'.db q k res hres d hd
      rw [h3] at hmem
      rw [h2]
      exact hmem
  · unfold CompletionService.IndexFile
    obtain ⟨s', h1, h2, h3, h4⟩ := reIndex_spec embed
      { s with indexedData :=
          (s.indexedData.eraseP (fun e => e.1 == pIdx)) ++ [(pIdx, chunks)] } hemIdx
    refine ⟨s', h1, h2, ?_, ?_⟩
    · rw [h3, h2]
    · rw [h4, h2]

/-- Witness for C5: two staged files, delete one, re-index another; the
embedder succeeds on everything. -/
theorem claim_C5_witness :
    (CompletionService.DeleteFile (fun _ => some [(0:ℚ)])
        ⟨⟨1, some (create_index [[(0:ℚ)], [1]]), ["a", "b"]⟩, [],
          [("f1", [⟨"f1", "a", 1, 1⟩]), ("f2", [⟨"f2", "b", 1, 1⟩])]⟩ "nope"
      = .ok ⟨⟨1, some (create_index [[(0:ℚ)], [1]]), ["a", "b"]⟩, [],
          [("f1", [⟨"f1", "a", 1, 1⟩]), ("f2", [⟨"f2", "b", 1, 1⟩])]⟩) ∧
    (∃ s', CompletionService.DeleteFile (fun _ => some [(0:ℚ)])
        ⟨⟨1, some (create_index [[(0:ℚ)], [1]]), ["a", "b"]⟩, [],
          [("f1", [⟨"f1", "a", 1, 1⟩]), ("f2", [⟨"f2", "b", 1, 1⟩])]⟩ "f2"
        = .ok s' ∧
      s'.indexedData = ([("f1", [⟨"f1", "a", 1, 1⟩]), ("f2", [⟨"f2", "b", 1, 1⟩])] :
          List (String × List Chunk)).eraseP (fun e => e.1 == "f2") ∧
      s'.db.docs = (flattenChunks s'.indexedData).map (fun ch => ch.Content) ∧
      vectorCount s'.db = (flattenChunks s'.indexedData).length ∧
      ∀ q k res, s'.db.Query q k = .ok res →
        ∀ d ∈ res, d ∈ (flattenChunks s'.indexedData).map (fun ch => ch.Content)) ∧
    (∃ s', CompletionService.IndexFile (fun _ => some [(0:ℚ)])
        ⟨⟨1, some (create_index [[(0:ℚ)], [1]]), ["a", "b"]⟩, [],
          [("f1", [⟨"f1", "a", 1, 1⟩]), ("f2", [⟨"f2", "b", 1, 1⟩])]⟩ "f1"
        [⟨"f1", "z", 1, 1⟩] = .ok s' ∧
      s'.indexedData = (([("f1", [⟨"f1", "a", 1, 1⟩]), ("f2", [⟨"f2", "b", 1, 1⟩])] :
          List (String × List Chunk)).eraseP (fun e => e.1 == "f1"))
          ++ [("f1", [⟨"f1", "z", 1, 1⟩])] ∧
      s'.db.docs = (flattenChunks s'.indexedData).map (fun ch => ch.Content) ∧
      vectorCount s'.db = (flattenChunks s'.indexedData).length) :=
  claim_C5 (fun _ => some [(0:ℚ)])
    ⟨⟨1, some (create_index [[(0:ℚ)], [1]]), ["a", "b"]⟩, [],
      [("f1", [⟨"f1", "a", 1, 1⟩]), ("f2", [⟨"f2", "b", 1, 1⟩])]⟩
    "nope" "f2" "f1" [⟨"f1", "z", 1, 1⟩]
    rfl rfl (by intro ch _; rfl) (by intro ch _; rfl)

/-! ## Claim C10 — configuration loading (config.go)

The process environment is modelled as an association list; `os.Getenv`
returns the empty string for unset variables.  `strings.ToLower` is
modelled on ASCII (all configuration tokens are ASCII).  `strconv.Atoi`
is sign + decimal digits with the 64-bit range check. -/

abbrev Env := List (String × String)

/-- Model of `os.Getenv`: empty string when unset. -/
def getEnv (env : Env) (name : String) : String :=
  (env.lookup name).getD ""

def toLowerStr (s : String) : String := String.mk (s.data.map Char.toLower)

/-- Model of `strconv.Atoi`: optional sign, decimal digits, 64-bit
range (Go returns a non-nil error outside the range, and all the call
sites only use the value when the error is nil). -/
def goAtoi (s : String) : Option Int :=
  match s.data with
  | [] => none
  | c :: rest =>
    let neg := c = '-'
    let digits := if c = '-' ∨ c = '+' then rest else c :: rest
    if digits.isEmpty then none
    else if digits.all Char.isDigit then
      let mag : ℕ := digits.foldl (fun acc d => acc * 10 + (d.toNat - 48)) 0
      let v : Int := if neg then -(mag : Int) else (mag : Int)
      if v < -9223372036854775808 ∨ 9223372036854775807 < v then none
      else some v
    else none

/-- Model of `strconv.ParseBool`. -/
def goParseBool (s : String) : Option Bool :=
  if s = "1" ∨ s = "t" ∨ s = "T" ∨ s = "true" ∨ s = "TRUE" ∨ s = "True" then some true
  else if s = "0" ∨ s = "f" ∨ s = "F" ∨ s = "false" ∨ s = "FALSE" ∨ s = "False" then
    some false
  else none

/-- Go declares `type EmbeddingProvider string`. -/
abbrev EmbeddingProvider := String

def ProviderOpenAI : EmbeddingProvider := "openai"

def ProviderLocal : EmbeddingProvider := "local"

def ProviderHuggingFace : EmbeddingProvider := "huggingface"

structure OpenAIConfig where
  APIKey : String
  Model : String
deriving Repr, DecidableEq

structure LocalConfig where
  ServerURL : String
  ModelName : String
  Timeout : Int
  ServerType : String
deriving Repr, DecidableEq

structure HuggingFaceConfig where
  ModelID : String
  CacheDir : String
  UseGPU : Bool
  MaxLength : Int
  BatchSize : Int
deriving Repr, DecidableEq

structure EmbeddingConfig where
  Provider : EmbeddingProvider
  OpenAI : OpenAIConfig
  Local : LocalConfig
  HuggingFace : HuggingFaceConfig
  Dimensions : Int
  CompletionModel : String
deriving Repr, DecidableEq

structure Config where
  Embedding : EmbeddingConfig
  ExcludedFiles : List String
  ExcludedExtensions : List String
deriving Repr, DecidableEq

/-- The repeated override pattern of `LoadConfig` for positive integer
variables: a set, parseable, strictly positive value replaces the
default; anything else (unset, malformed, non-positive) silently keeps
the default. -/
def loadPosInt (env : Env) (name : String) (dflt : Int) : Int :=
  let s := getEnv env name
  if s = "" then dflt
  else
    match goAtoi s with
    | some v => if v > 0 then v else dflt
    | none => dflt

/-- The override pattern for string variables: non-empty replaces the
default. -/
def loadString (env : Env) (name : String) (dflt : String) : String :=
  let s := getEnv env name
  if s = "" then dflt else s

/-- Model of `Config.Validate` (the trailing non-negative dimensions
check is shared by all provider branches). -/
def Config.Validate (c : Config) : Option String :=
  let dims := if c.Embedding.Dimensions < 0 then
    some "embedding dimensions must be non-negative" else none
  if c.Embedding.Provider = ProviderOpenAI then
    if c.Embedding.OpenAI.APIKey = "" then
      some "OpenAI API key is required when using OpenAI provider"
    else if c.Embedding.OpenAI.Model = "" then some "OpenAI model is required"
    else dims
  else if c.Embedding.Provider = ProviderLocal then
    if c.Embedding.Local.ServerURL = "" then
      some "local embedding server URL is required when using local provider"
    else if c.Embedding.Local.Timeout ≤ 0 then
      some "local embedding timeout must be positive"
    else if ¬ (c.Embedding.Local.ServerType = "tei"
        ∨ c.Embedding.Local.ServerType = "ollama"
        ∨ c.Embedding.Local.ServerType = "custom") then
      some ("invalid server type: " ++ c.Embedding.Local.ServerType)
    else dims
  else if c.Embedding.Provider = ProviderHuggingFace then
    if c.Embedding.HuggingFace.ModelID = "" then
      some "HuggingFace model ID is required when using HuggingFace provider"
    else if c.Embedding.HuggingFace.MaxLength ≤ 0 then
      some "HuggingFace max length must be positive"
    else if c.Embedding.HuggingFace.BatchSize ≤ 0 then
      some "HuggingFace batch size must be positive"
    else dims
  else
    some ("unknown embedding provider: " ++ c.Embedding.Provider)

/-- The provider switch of `LoadConfig`: unset keeps the OpenAI
default, a known name (case-insensitively) selects it, anything else is
the error case. -/
def parseProvider (env : Env) : Option EmbeddingProvider :=
  let providerStr := getEnv env "EMBEDDING_PROVIDER"
  if providerStr = "" then some ProviderOpenAI
  else if toLowerStr providerStr = "openai" then some ProviderOpenAI
  else if toLowerStr providerStr = "local" then some ProviderLocal
  else if toLowerStr providerStr = "huggingface" then some ProviderHuggingFace
  else none

/-- The configuration record `LoadConfig` assembles from the defaults
and the environment overrides. -/
def buildConfig (env : Env) (provider : EmbeddingProvider) : Config :=
  { Embedding :=
      { Provider := provider
        OpenAI :=
          { APIKey := getEnv env "OPENAI_API_KEY"
            Model := loadString env "OPENAI_EMBEDDING_MODEL" "text-embedding-3-small" }
        Local :=
          { ServerURL := loadString env "LOCAL_EMBEDDING_URL" "http://localhost:8080"
            ModelName := loadString env "LOCAL_EMBEDDING_MODEL" ""
            Timeout := loadPosInt env "LOCAL_EMBEDDING_TIMEOUT" 30
            ServerType :=
              if getEnv env "LOCAL_EMBEDDING_SERVER_TYPE" = "" then "tei"
              else toLowerStr (getEnv env "LOCAL_EMBEDDING_SERVER_TYPE") }
        HuggingFace :=
          { ModelID := loadString env "HUGGINGFACE_MODEL_ID"
              "sentence-transformers/all-MiniLM-L6-v2"
            CacheDir := loadString env "HUGGINGFACE_CACHE_DIR" "./models"
            UseGPU := (goParseBool (getEnv env "HUGGINGFACE_USE_GPU")).getD false
            MaxLength := loadPosInt env "HUGGINGFACE_MAX_LENGTH" 512
            BatchSize := loadPosInt env "HUGGINGFACE_BATCH_SIZE" 1 }
        Dimensions := loadPosInt env "EMBEDDING_DIMENSIONS" 0
        CompletionModel := loadString env "OPENAI_COMPLETION_MODEL" "" }
    ExcludedFiles :=
      if getEnv env "EXCLUDED_FILES" = "" then []
      else ((getEnv env "EXCLUDED_FILES").splitOn ",").map String.trim
    ExcludedExtensions :=
      if getEnv env "EXCLUDED_EXTENSIONS" = "" then []
      else ((getEnv env "EXCLUDED_EXTENSIONS").splitOn ",").map String.trim }

/-- Model of `LoadConfig`: defaults, environment overrides, then
validation. -/
def LoadConfig (env : Env) : Except String Config :=
  match parseProvider env with
  | none => .error ("invalid embedding provider: " ++ getEnv env "EMBEDDING_PROVIDER")
  | some provider =>
    match (buildConfig env provider).Validate with
    | some e => .error ("invalid configuration: " ++ e)
    | none => .ok (buildConfig env provider)

theorem loadPosInt_pos (env : Env) (name : String) (dflt : Int) (hd : 0 < dflt) :
    0 < loadPosInt env name dflt := by
  unfold loadPosInt
  by_cases h1 : getEnv env name = ""
  · rw [if_pos h1]; exact hd
  · rw [if_neg h1]
    cases hA : goAtoi (getEnv env name) with
    | none => exact hd
    | some v =>
      dsimp only
      by_cases hv : v > 0
      · rw [if_pos hv]; exact hv
      · rw [if_neg hv]; exact hd

theorem Validate_none_local {c : Config} (h : c.Validate = none)
    (hp : c.Embedding.Provider = ProviderLocal) :
    c.Embedding.Local.ServerType = "tei" ∨ c.Embedding.Local.ServerType = "ollama"
      ∨ c.Embedding.Local.ServerType = "custom" := by
  unfold Config.Validate at h
  have hne : ¬ c.Embedding.Provider = ProviderOpenAI := by
    rw [hp]; decide
  rw [if_neg hne, if_pos hp] at h
  by_cases hu : c.Embedding.Local.ServerURL = ""
  · rw [if_pos hu] at h; simp at h
  · rw [if_neg hu] at h
    by_cases ht : c.Embedding.Local.Timeout ≤ 0
    · rw [if_pos ht] at h; simp at h
    · rw [if_neg ht] at h
      by_cases hs : ¬ (c.Embedding.Local.ServerType = "tei"
          ∨ c.Embedding.Local.ServerType = "ollama"
          ∨ c.Embedding.Local.ServerType = "custom")
      · rw [if_pos hs] at h; simp at h
      · exact not_not.mp hs

theorem LoadConfig_ok_shape (env : Env) (cfg : Config)
    (hok : LoadConfig env = .ok cfg) :
    ∃ provider, parseProvider env = some provider ∧
      cfg = buildConfig env provider ∧ cfg.Validate = none := by
  unfold LoadConfig at hok
  cases hpp : parseProvider env with
  | none =>
    simp only [hpp] at hok
    exact Except.noConfusion hok
  | some provider =>
    simp only [hpp] at hok
    cases hv : (buildConfig env provider).Validate with
    | some e =>
      simp only [hv] at hok
      exact Except.noConfusion hok
    | none =>
      simp only [hv] at hok
      have hc := ((Except.ok.injEq _ _).mp hok).symm
      exact ⟨provider, rfl, hc, by rw [hc]; exact hv⟩

/-! ## Claim C10 -/

/-- C10 counterexample: an environment with an unknown local dialect
(`"bogus"`), a non-positive timeout (`"-5"`), and a non-positive max
length (`"0"`) for which `LoadConfig` nevertheless succeeds — the bad
numeric values are silently ignored in favour of the positive defaults,
and the dialect is never checked because the effective provider is
`openai`. -/
theorem claim_C10_counterexample :
    LoadConfig [("OPENAI_API_KEY", "k"), ("LOCAL_EMBEDDING_SERVER_TYPE", "bogus"),
        ("LOCAL_EMBEDDING_TIMEOUT", "-5"), ("HUGGINGFACE_MAX_LENGTH", "0")]
      = .ok ⟨⟨"openai", ⟨"k", "text-embedding-3-small"⟩,
          ⟨"http://localhost:8080", "", 30, "bogus"⟩,
          ⟨"sentence-transformers/all-MiniLM-L6-v2", "./models", false, 512, 1⟩,
          0, ""⟩, [], []⟩ ∧
    ¬ (("bogus" : String) = "tei" ∨ ("bogus" : String) = "ollama"
        ∨ ("bogus" : String) = "custom") ∧
    goAtoi "-5" = some (-5) ∧ ¬ ((-5 : Int) > 0) ∧
    goAtoi "0" = some 0 ∧ ¬ ((0 : Int) > 0) := by
  exact ⟨rfl, by decide, by decide, by decide, by decide, by decide⟩

/-- C10 amended: `LoadConfig` rejects unknown `EMBEDDING_PROVIDER`
values; but a non-positive timeout or length in the environment never
causes an error — the parsed value is discarded and the positive
default kept, so every configuration `LoadConfig` returns has positive
timeout, max length and batch size; and an unknown
`LOCAL_EMBEDDING_SERVER_TYPE` is rejected only when the effective
provider is `local` (a returned configuration with provider `local`
always carries a known dialect). -/
theorem claim_C10_amended (env env2 : Env) (cfg : Config) (p : String)
    (hp : getEnv env "EMBEDDING_PROVIDER" = p) (hpne : ¬ p = "")
    (h1 : ¬ toLowerStr p = "openai") (h2 : ¬ toLowerStr p = "local")
    (h3 : ¬ toLowerStr p = "huggingface")
    (hok : LoadConfig env2 = .ok cfg) :
    LoadConfig env = .error ("invalid embedding provider: " ++ p) ∧
    0 < cfg.Embedding.Local.Timeout ∧
    0 < cfg.Embedding.HuggingFace.MaxLength ∧
    0 < cfg.Embedding.HuggingFace.BatchSize ∧
    (cfg.Embedding.Provider = ProviderLocal →
      cfg.Embedding.Local.ServerType = "tei"
        ∨ cfg.Embedding.Local.ServerType = "ollama"
        ∨ cfg.Embedding.Local.ServerType = "custom") := by
  obtain ⟨provider, hpp, hcfg, hval⟩ := LoadConfig_ok_shape env2 cfg hok
  have hparse : parseProvider env = none := by
    unfold parseProvider
    rw [hp, if_neg hpne, if_neg h1, if_neg h2, if_neg h3]
  refine ⟨?_, ?_, ?_, ?_, ?_⟩
  · unfold LoadConfig
    rw [hparse, hp]
  · rw [hcfg]
    exact loadPosInt_pos env2 "LOCAL_EMBEDDING_TIMEOUT" 30 (by decide)
  · rw [hcfg]
    exact loadPosInt_pos env2 "HUGGINGFACE_MAX_LENGTH" 512 (by decide)
  · rw [hcfg]
    exact loadPosInt_pos env2 "HUGGINGFACE_BATCH_SIZE" 1 (by decide)
  · intro hprov
    exact Validate_none_local hval hprov

/-- Witness for C10 amended. -/
theorem claim_C10_amended_witness :
    LoadConfig [("EMBEDDING_PROVIDER", "bogus")]
      = .error ("invalid embedding provider: " ++ "bogus") ∧
    0 < (⟨⟨"openai", ⟨"k", "text-embedding-3-small"⟩,
          ⟨"http://localhost:8080", "", 30, "tei"⟩,
          ⟨"sentence-transformers/all-MiniLM-L6-v2", "./models", false, 512, 1⟩,
          0, ""⟩, [], []⟩ : Config).Embedding.Local.Timeout ∧
    0 < (⟨⟨"openai", ⟨"k", "text-embedding-3-small"⟩,
          ⟨"http://localhost:8080", "", 30, "tei"⟩,
          ⟨"sentence-transformers/all-MiniLM-L6-v2", "./models", false, 512, 1⟩,
          0, ""⟩, [], []⟩ : Config).Embedding.HuggingFace.MaxLength ∧
    0 < (⟨⟨"openai", ⟨"k", "text-embedding-3-small"⟩,
          ⟨"http://localhost:8080", "", 30, "tei"⟩,
          ⟨"sentence-transformers/all-MiniLM-L6-v2", "./models", false, 512, 1⟩,
          0, ""⟩, [], []⟩ : Config).Embedding.HuggingFace.BatchSize ∧
    ((⟨⟨"openai", ⟨"k", "text-embedding-3-small"⟩,
          ⟨"http://localhost:8080", "", 30, "tei"⟩,
          ⟨"sentence-transformers/all-MiniLM-L6-v2", "./models", false, 512, 1⟩,
          0, ""⟩, [], []⟩ : Config).Embedding.Provider = ProviderLocal →
      (⟨⟨"openai", ⟨"k", "text-embedding-3-small"⟩,
          ⟨"http://localhost:8080", "", 30, "tei"⟩,
          ⟨"sentence-transformers/all-MiniLM-L6-v2", "./models", false, 512, 1⟩,
          0, ""⟩, [], []⟩ : Config).Embedding.Local.ServerType = "tei"
        ∨ (⟨⟨"openai", ⟨"k", "text-embedding-3-small"⟩,
          ⟨"http://localhost:8080", "", 30, "tei"⟩,
          ⟨"sentence-transformers/all-MiniLM-L6-v2", "./models", false, 512, 1⟩,
          0, ""⟩, [], []⟩ : Config).Embedding.Local.ServerType = "ollama"
        ∨ (⟨⟨"openai", ⟨"k", "text-embedding-3-small"⟩,
          ⟨"http://localhost:8080", "", 30, "tei"⟩,
          ⟨"sentence-transformers/all-MiniLM-L6-v2", "./models", false, 512, 1⟩,
          0, ""⟩, [], []⟩ : Config).Embedding.Local.ServerType = "custom") :=
  claim_C10_amended [("EMBEDDING_PROVIDER", "bogus")] [("OPENAI_API_KEY", "k")]
    ⟨⟨"openai", ⟨"k", "text-embedding-3-small"⟩,
      ⟨"http://localhost:8080", "", 30, "tei"⟩,
      ⟨"sentence-transformers/all-MiniLM-L6-v2", "./models", false, 512, 1⟩,
      0, ""⟩, [], []⟩ "bogus"
    rfl (by decide) (by decide) (by decide) (by decide) rfl

end Autocomplete
